import Mathlib

/-!
Shallow embedding of `sandbox/sandbox.go` (cg-sandbox).

Modelling conventions:
* Go `time.Time` is modelled as `Int`: nanoseconds since Go's zero reference
  instant (January 1, year 1 UTC).  The zero `time.Time` value is `0`, and
  `IsZero()` is `= 0`.  `t.Before(u)` is `t < u`, `timeStartsAt.After(t)` is
  `timeStartsAt > t`.
* `time.Time.Truncate(24 * time.Hour)` rounds down to a multiple of 24h
  counted from the zero instant, i.e. floor division by `nsPerDay`.
* `now.Sub(first).Hours() / 24` converted by Go's `int(...)` truncates toward
  zero; it is modelled exactly as `Int.tdiv (now - first) nsPerDay`
  (the float64 intermediate is modelled as exact real arithmetic).
* `time.Parse(time.RFC3339Nano, s)` is an external library call; it is passed
  in as a parameter `parse : String → Option Int` (`none` = parse error, and
  the error value is modelled by the offending input string).
* Go `map[string][]T` is modelled as an association list with at most one
  entry per key; Go indexing on a missing key yields the zero value (`nil`
  slice), modelled by `mapGet`.
* Go multiple return values `(toNotify, toPurge, err)` are modelled as a
  triple whose last component is `Option String` (`none` = nil error).
-/

namespace Sandbox

/-- Nanoseconds in 24 hours (`24 * time.Hour` as a Go `time.Duration`). -/
def nsPerDay : Int := 86400000000000

/-- Go `t.Truncate(24 * time.Hour)`: round `t` down to a multiple of 24h
since the zero instant. -/
def truncateDay (t : Int) : Int := nsPerDay * (t.fdiv nsPerDay)

/-- `cfclient.Space` (the fields this package reads). -/
structure Space where
  guid : String
  name : String
  deriving DecidableEq, Repr

/-- `cfclient.App` (the fields this package reads). -/
structure App where
  guid : String
  spaceGuid : String
  createdAt : String
  deriving DecidableEq, Repr

/-- `cfclient.ServiceInstance` (the fields this package reads). -/
structure ServiceInstance where
  guid : String
  spaceGuid : String
  createdAt : String
  deriving DecidableEq, Repr

/-- `SpaceDetails` describes a space and its first resource creation time. -/
structure SpaceDetails where
  timestamp : Int
  space : Space
  deriving DecidableEq, Repr

/-- Lookup in the association-list model of a Go `map[string][]α`. -/
def mapLookup {α : Type} (m : List (String × List α)) (k : String) : Option (List α) :=
  match m with
  | [] => none
  | (k2, v) :: rest => if k2 = k then some v else mapLookup rest k

/-- `m[k] = v` on the association-list model: update in place or insert at
the end. -/
def mapSet {α : Type} (m : List (String × List α)) (k : String) (v : List α) :
    List (String × List α) :=
  match m with
  | [] => [(k, v)]
  | (k2, w) :: rest => if k2 = k then (k2, v) :: rest else (k2, w) :: mapSet rest k v

/-- Go map indexing: a missing key reads as the zero value (`nil` slice). -/
def mapGet {α : Type} (m : List (String × List α)) (k : String) : List α :=
  (mapLookup m k).getD []

/-- One iteration of the grouping loops: creates the key's entry if absent
(`if _, ok := grouped[k]; !ok { grouped[k] = []T{} }`), then appends
(`grouped[k] = append(grouped[k], x)`). -/
def groupStep {α : Type} (key : α → String) (grouped : List (String × List α)) (x : α) :
    List (String × List α) :=
  let g := if (mapLookup grouped (key x)).isNone then mapSet grouped (key x) [] else grouped
  mapSet g (key x) (mapGet g (key x) ++ [x])

/-- The common shape of `groupAppsBySpace` and `groupInstancesBySpace`. -/
def groupBySpace {α : Type} (key : α → String) (xs : List α) : List (String × List α) :=
  xs.foldl (groupStep key) []

/-- `groupAppsBySpace` from sandbox.go. -/
def groupAppsBySpace (apps : List App) : List (String × List App) :=
  groupBySpace App.spaceGuid apps

/-- `groupInstancesBySpace` from sandbox.go. -/
def groupInstancesBySpace (instances : List ServiceInstance) :
    List (String × List ServiceInstance) :=
  groupBySpace ServiceInstance.spaceGuid instances

/-- One of the two loops of `GetFirstResource`: starting from the current
`firstResource`, parse each resource's `CreatedAt`; on parse failure return
the error at once; otherwise keep the resource's time when `firstResource`
is zero or the time is before `firstResource`. -/
def foldFirst {α : Type} (parse : String → Option Int) (created : α → String) :
    Int → List α → Except String Int
  | first, [] => .ok first
  | first, x :: rest =>
    match parse (created x) with
    | none => .error (created x)
    | some t => foldFirst parse created (if first = 0 ∨ t < first then t else first) rest

/-- `GetFirstResource` from sandbox.go: the creation timestamp of the
earliest-created resource in a space (apps loop, then instances loop,
both over the buckets keyed by the space's guid). -/
def GetFirstResource (parse : String → Option Int) (space : Space)
    (apps : List App) (instances : List ServiceInstance) : Except String Int :=
  match foldFirst parse App.createdAt 0 (mapGet (groupAppsBySpace apps) space.guid) with
  | .error e => .error e
  | .ok f => foldFirst parse ServiceInstance.createdAt f
      (mapGet (groupInstancesBySpace instances) space.guid)

/-- The loop of `ListPurgeSpaces`, with the named return values
`toNotify`/`toPurge` as accumulators; an error return carries whatever has
been accumulated so far, exactly like Go's named-return `return`. -/
def listPurgeGo (parse : String → Option Int) (apps : List App)
    (instances : List ServiceInstance) (now : Int)
    (notifyThreshold purgeThreshold : Int) (timeStartsAt : Int) :
    List Space → List SpaceDetails → List SpaceDetails →
    List SpaceDetails × List SpaceDetails × Option String
  | [], toNotify, toPurge => (toNotify, toPurge, none)
  | space :: rest, toNotify, toPurge =>
    match GetFirstResource parse space apps instances with
    | .error e => (toNotify, toPurge, some e)
    | .ok firstResource =>
      if firstResource = 0 then
        listPurgeGo parse apps instances now notifyThreshold purgeThreshold timeStartsAt
          rest toNotify toPurge
      else
        let clamped := if timeStartsAt > firstResource then timeStartsAt else firstResource
        let fr := truncateDay clamped
        let delta := Int.tdiv (now - fr) nsPerDay
        if delta ≥ purgeThreshold then
          listPurgeGo parse apps instances now notifyThreshold purgeThreshold timeStartsAt
            rest toNotify (toPurge ++ [⟨fr, space⟩])
        else if delta ≥ notifyThreshold then
          listPurgeGo parse apps instances now notifyThreshold purgeThreshold timeStartsAt
            rest (toNotify ++ [⟨fr, space⟩]) toPurge
        else
          listPurgeGo parse apps instances now notifyThreshold purgeThreshold timeStartsAt
            rest toNotify toPurge

/-- `ListPurgeSpaces` from sandbox.go: identifies spaces that will be
notified or purged.  Returns `(toNotify, toPurge, err)`. -/
def ListPurgeSpaces (parse : String → Option Int) (spaces : List Space)
    (apps : List App) (instances : List ServiceInstance) (now : Int)
    (notifyThreshold purgeThreshold : Int) (timeStartsAt : Int) :
    List SpaceDetails × List SpaceDetails × Option String :=
  listPurgeGo parse apps instances now notifyThreshold purgeThreshold timeStartsAt
    spaces [] []

/-- The upstream platform client, as the pure outcome of each call
`PurgeSpace` can make: `DeleteSpace(guid, recursive=true, async=false)`,
`ListAppsByQuery(space_guid:guid)`, `DeleteApp(guid)`.
`none` models a nil error. -/
structure Client where
  deleteSpaceResult : String → Option String
  listAppsResult : String → Except String (List App)
  deleteAppResult : String → Option String

/-- A call made against the upstream client, for observing which calls
`PurgeSpace` performs and in which order. -/
inductive Call where
  | deleteSpace (guid : String)
  | listApps (spaceGuid : String)
  | deleteApp (guid : String)
  deriving DecidableEq, Repr

/-- The app-deletion loop of `PurgeSpace`: delete each app in order,
returning the first failing deletion's error and stopping there.  Also
returns the trace of `DeleteApp` calls actually made. -/
def deleteAppsLoop (client : Client) : List App → Option String × List Call
  | [] => (none, [])
  | app :: rest =>
    match client.deleteAppResult app.guid with
    | some e => (some e, [Call.deleteApp app.guid])
    | none =>
      let r := deleteAppsLoop client rest
      (r.1, Call.deleteApp app.guid :: r.2)

/-- `PurgeSpace` from sandbox.go: delete the space; if that fails, list the
space's apps (propagating a listing failure), delete each app (propagating
the first deletion failure), and otherwise return the original
space-deletion error.  The second component is the trace of client calls. -/
def PurgeSpace (client : Client) (space : Space) : Option String × List Call :=
  match client.deleteSpaceResult space.guid with
  | none => (none, [Call.deleteSpace space.guid])
  | some spaceErr =>
    match client.listAppsResult space.guid with
    | .error e => (some e, [Call.deleteSpace space.guid, Call.listApps space.guid])
    | .ok apps =>
      let r := deleteAppsLoop client apps
      (some (r.1.getD spaceErr),
        Call.deleteSpace space.guid :: Call.listApps space.guid :: r.2)

/-- How a bucket accumulates: `none ++ [] = none`, otherwise the entry holds
everything seen so far (a helper for stating the grouping lemmas). -/
def combineBucket {α : Type} : Option (List α) → List α → Option (List α)
  | none, [] => none
  | none, l => some l
  | some v, l => some (v ++ l)

/-- The accumulator update of the `GetFirstResource` loops:
`if firstResource.IsZero() || createdAt.Before(firstResource)`. -/
def minStep (a t : Int) : Int := if a = 0 ∨ t < a then t else a

/-- The clamp of `ListPurgeSpaces`:
`if timeStartsAt.After(firstResource) { firstResource = timeStartsAt }`. -/
def clampStart (timeStartsAt f : Int) : Int := if timeStartsAt > f then timeStartsAt else f

/-- The anchor recorded by `ListPurgeSpaces`: clamp, then truncate. -/
def anchorOf (timeStartsAt f : Int) : Int := truncateDay (clampStart timeStartsAt f)

/-- The age in whole days: `int(now.Sub(firstResource).Hours() / 24)`. -/
def deltaOf (now anchor : Int) : Int := Int.tdiv (now - anchor) nsPerDay

/-! ### Association-list map lemmas -/

theorem mapLookup_mapSet_self {α : Type} (m : List (String × List α)) (k : String)
    (v : List α) : mapLookup (mapSet m k v) k = some v := by
  induction m with
  | nil => simp [mapSet, mapLookup]
  | cons hd tl ih =>
    obtain ⟨k2, w⟩ := hd
    by_cases h : k2 = k
    · simp [mapSet, mapLookup, h]
    · simp [mapSet, mapLookup, h, ih]

theorem mapLookup_mapSet_ne {α : Type} (m : List (String × List α)) (k k2 : String)
    (v : List α) (hne : k2 ≠ k) : mapLookup (mapSet m k v) k2 = mapLookup m k2 := by
  have hkk : ¬(k = k2) := fun h => hne h.symm
  induction m with
  | nil => simp [mapSet, mapLookup, hkk]
  | cons hd tl ih =>
    obtain ⟨k3, w⟩ := hd
    by_cases h : k3 = k
    · subst h
      simp [mapSet, mapLookup, hkk]
    · simp [mapSet, mapLookup, h, ih]

theorem combineBucket_none_nil {α : Type} : combineBucket (α := α) none [] = none := rfl

theorem combineBucket_none_cons {α : Type} (a : α) (l : List α) :
    combineBucket none (a :: l) = some (a :: l) := rfl

theorem combineBucket_some {α : Type} (v l : List α) :
    combineBucket (some v) l = some (v ++ l) := by
  cases l <;> rfl

theorem foldl_groupStep_lookup {α : Type} (key : α → String) :
    ∀ (xs : List α) (m : List (String × List α)) (k : String),
    mapLookup (xs.foldl (groupStep key) m) k =
      combineBucket (mapLookup m k) (xs.filter (fun x => key x = k)) := by
  intro xs
  induction xs with
  | nil =>
    intro m k
    cases h : mapLookup m k <;> simp [List.filter, combineBucket, h]
  | cons x xs ih =>
    intro m k
    rw [List.foldl_cons, ih]
    by_cases hk : key x = k
    · have hfil : (x :: xs).filter (fun y => key y = k) =
          x :: xs.filter (fun y => key y = k) := by
        simp [List.filter_cons, hk]
      rw [hfil]
      cases h : mapLookup m k with
      | none =>
        have hg : mapLookup (groupStep key m x) k = some [x] := by
          unfold groupStep
          rw [hk]
          simp [h, mapGet, mapLookup_mapSet_self]
        rw [hg, combineBucket_some, combineBucket_none_cons]
        simp
      | some w =>
        have hg : mapLookup (groupStep key m x) k = some (w ++ [x]) := by
          unfold groupStep
          rw [hk]
          simp [h, mapGet, mapLookup_mapSet_self]
        rw [hg, combineBucket_some, combineBucket_some]
        simp
    · have hfil : (x :: xs).filter (fun y => key y = k) =
          xs.filter (fun y => key y = k) := by
        simp [List.filter_cons, hk]
      rw [hfil]
      have hne2 : k ≠ key x := fun h => hk h.symm
      have hg : mapLookup (groupStep key m x) k = mapLookup m k := by
        unfold groupStep
        by_cases hnone : (mapLookup m (key x)).isNone = true
        · simp only [hnone, if_true]
          rw [mapLookup_mapSet_ne _ _ _ _ hne2, mapLookup_mapSet_ne _ _ _ _ hne2]
        · rw [if_neg hnone, mapLookup_mapSet_ne _ _ _ _ hne2]
      rw [hg]

theorem mapLookup_groupBySpace {α : Type} (key : α → String) (xs : List α) (k : String) :
    mapLookup (groupBySpace key xs) k =
      combineBucket none (xs.filter (fun x => key x = k)) := by
  unfold groupBySpace
  rw [foldl_groupStep_lookup]
  rfl

theorem mapGet_groupBySpace {α : Type} (key : α → String) (xs : List α) (k : String) :
    mapGet (groupBySpace key xs) k = xs.filter (fun x => key x = k) := by
  unfold mapGet
  rw [mapLookup_groupBySpace]
  cases h : xs.filter (fun x => key x = k) with
  | nil => rw [combineBucket_none_nil]; rfl
  | cons a l => rw [combineBucket_none_cons]; rfl

/-! ### Arithmetic lemmas: truncation and Go int conversion -/

theorem nsPerDay_pos : (0 : Int) < nsPerDay := by decide

/-- Go `int(x)` on the day quotient truncates toward zero; it is monotone in
the numerator for a positive denominator. -/
theorem tdiv_mono_left {a b d : Int} (hd : 0 < d) (hab : a ≤ b) :
    a.tdiv d ≤ b.tdiv d := by
  by_cases ha : 0 ≤ a
  · have hb : 0 ≤ b := le_trans ha hab
    rw [Int.tdiv_eq_ediv ha hd.le, Int.tdiv_eq_ediv hb hd.le]
    exact Int.ediv_le_ediv hd hab
  · have ha2 : a < 0 := lt_of_not_le ha
    have hnegtd : a.tdiv d = -((-a).tdiv d) := by
      rw [show a = -(-a) by ring, Int.neg_tdiv, neg_neg]
    by_cases hb : 0 ≤ b
    · have h1 : a.tdiv d ≤ 0 := by
        rw [hnegtd]
        simp only [neg_nonpos]
        exact Int.tdiv_nonneg (by omega) hd.le
      exact le_trans h1 (Int.tdiv_nonneg hb hd.le)
    · have hb2 : b < 0 := lt_of_not_le hb
      have hnegtd2 : b.tdiv d = -((-b).tdiv d) := by
        rw [show b = -(-b) by ring, Int.neg_tdiv, neg_neg]
      rw [hnegtd, hnegtd2, neg_le_neg_iff]
      rw [Int.tdiv_eq_ediv (by omega) hd.le, Int.tdiv_eq_ediv (by omega) hd.le]
      exact Int.ediv_le_ediv hd (by omega)

theorem truncateDay_mono {a b : Int} (hab : a ≤ b) : truncateDay a ≤ truncateDay b := by
  unfold truncateDay
  have h : a.fdiv nsPerDay ≤ b.fdiv nsPerDay := by
    rw [Int.fdiv_eq_ediv _ nsPerDay_pos.le, Int.fdiv_eq_ediv _ nsPerDay_pos.le]
    exact Int.ediv_le_ediv nsPerDay_pos hab
  exact mul_le_mul_of_nonneg_left h nsPerDay_pos.le

theorem truncateDay_idem (t : Int) : truncateDay (truncateDay t) = truncateDay t := by
  unfold truncateDay
  rw [Int.mul_fdiv_cancel_left _ (by decide : nsPerDay ≠ 0)]

/-! ### C9: grouping correctness -/

/-- C9: Grouping by space identifier: each bucket is exactly the
order-preserving filter of the input by that key; a key has an entry iff
some resource carries it; each resource occurs in its own key's bucket
exactly as often as in the input, and in no other bucket.  Stated for
`groupAppsBySpace` and `groupInstancesBySpace`. -/
theorem claim_C9 (apps : List App) (instances : List ServiceInstance) (k : String)
    (a : App) (i : ServiceInstance) :
    (mapGet (groupAppsBySpace apps) k = apps.filter (fun x => x.spaceGuid = k)) ∧
    (mapLookup (groupAppsBySpace apps) k = none ↔
      apps.filter (fun x => x.spaceGuid = k) = []) ∧
    ((mapGet (groupAppsBySpace apps) a.spaceGuid).count a = apps.count a) ∧
    (a ∈ mapGet (groupAppsBySpace apps) k → k = a.spaceGuid) ∧
    (mapGet (groupInstancesBySpace instances) k =
      instances.filter (fun x => x.spaceGuid = k)) ∧
    (mapLookup (groupInstancesBySpace instances) k = none ↔
      instances.filter (fun x => x.spaceGuid = k) = []) ∧
    ((mapGet (groupInstancesBySpace instances) i.spaceGuid).count i =
      instances.count i) ∧
    (i ∈ mapGet (groupInstancesBySpace instances) k → k = i.spaceGuid) := by
  have happs : ∀ k2, mapGet (groupAppsBySpace apps) k2 =
      apps.filter (fun x => x.spaceGuid = k2) := fun k2 =>
    mapGet_groupBySpace App.spaceGuid apps k2
  have hinst : ∀ k2, mapGet (groupInstancesBySpace instances) k2 =
      instances.filter (fun x => x.spaceGuid = k2) := fun k2 =>
    mapGet_groupBySpace ServiceInstance.spaceGuid instances k2
  refine ⟨happs k, ?_, ?_, ?_, hinst k, ?_, ?_, ?_⟩
  · unfold groupAppsBySpace
    rw [mapLookup_groupBySpace]
    cases h : apps.filter (fun x => x.spaceGuid = k) with
    | nil => simp [combineBucket_none_nil]
    | cons y l => simp [combineBucket_none_cons]
  · rw [happs]
    exact List.count_filter (by simp)
  · intro hmem
    rw [happs] at hmem
    have := List.of_mem_filter hmem
    simp at this
    exact this.symm
  · unfold groupInstancesBySpace
    rw [mapLookup_groupBySpace]
    cases h : instances.filter (fun x => x.spaceGuid = k) with
    | nil => simp [combineBucket_none_nil]
    | cons y l => simp [combineBucket_none_cons]
  · rw [hinst]
    exact List.count_filter (by simp)
  · intro hmem
    rw [hinst] at hmem
    have := List.of_mem_filter hmem
    simp at this
    exact this.symm

/-! ### foldFirst / GetFirstResource lemmas -/

theorem foldFirst_ok_of_all_parse {α : Type} (parse : String → Option Int)
    (created : α → String) :
    ∀ (l : List α) (first : Int), (∀ x ∈ l, (parse (created x)).isSome) →
    foldFirst parse created first l =
      .ok (l.foldl (fun a x => minStep a ((parse (created x)).getD 0)) first) := by
  intro l
  induction l with
  | nil => intro first _; rfl
  | cons x xs ih =>
    intro first h
    have hx := h x (List.mem_cons_self x xs)
    cases hp : parse (created x) with
    | none => rw [hp] at hx; simp at hx
    | some t =>
      simp only [foldFirst, hp, List.foldl_cons, Option.getD_some, minStep]
      exact ih _ (fun y hy => h y (List.mem_cons_of_mem x hy))

theorem foldFirst_error_of_bad {α : Type} (parse : String → Option Int)
    (created : α → String) :
    ∀ (l : List α) (first : Int), (∃ x ∈ l, parse (created x) = none) →
    ∃ e, foldFirst parse created first l = .error e := by
  intro l
  induction l with
  | nil =>
    intro first h
    obtain ⟨x, hx, _⟩ := h
    simp at hx
  | cons x xs ih =>
    intro first h
    cases hp : parse (created x) with
    | none => exact ⟨created x, by simp [foldFirst, hp]⟩
    | some t =>
      obtain ⟨y, hy, hpy⟩ := h
      rcases List.mem_cons.mp hy with heq | hy2
      · rw [heq, hp] at hpy; cases hpy
      · obtain ⟨e, he⟩ :=
          ih (if first = 0 ∨ t < first then t else first) ⟨y, hy2, hpy⟩
        exact ⟨e, by simp [foldFirst, hp, he]⟩

theorem foldl_minStep_of_ne_zero :
    ∀ (vals : List Int) (first : Int), (∀ v ∈ vals, v ≠ 0) → first ≠ 0 →
    vals.foldl minStep first ∈ first :: vals ∧ vals.foldl minStep first ≤ first ∧
      ∀ v ∈ vals, vals.foldl minStep first ≤ v := by
  intro vals
  induction vals with
  | nil =>
    intro first _ _
    refine ⟨List.mem_cons_self _ _, le_refl _, ?_⟩
    intro v hv
    simp at hv
  | cons v vs ih =>
    intro first hne hf
    have hv0 : v ≠ 0 := hne v (List.mem_cons_self v vs)
    have ha1 : minStep first v = if v < first then v else first := by
      simp [minStep, hf]
    have ha1ne : minStep first v ≠ 0 := by
      rw [ha1]; by_cases h : v < first <;> simp [h, hv0, hf]
    have ha1first : minStep first v ≤ first := by
      rw [ha1]; by_cases h : v < first <;> simp [h] <;> omega
    have ha1v : minStep first v ≤ v := by
      rw [ha1]; by_cases h : v < first <;> simp [h] <;> omega
    obtain ⟨hmem, hle, hall⟩ :=
      ih (minStep first v) (fun w hw => hne w (List.mem_cons_of_mem v hw)) ha1ne
    rw [List.foldl_cons]
    refine ⟨?_, le_trans hle ha1first, ?_⟩
    · rcases List.mem_cons.mp hmem with heq | hm2
      · rw [heq, ha1]
        by_cases h : v < first
        · rw [if_pos h]
          exact List.mem_cons_of_mem first (List.mem_cons_self v vs)
        · rw [if_neg h]
          exact List.mem_cons_self first (v :: vs)
      · exact List.mem_cons_of_mem first (List.mem_cons_of_mem v hm2)
    · intro w hw
      rcases List.mem_cons.mp hw with heq | hm2
      · rw [heq]
        exact le_trans hle ha1v
      · exact hall w hm2

theorem foldl_minStep_zero_cons (v : Int) (vs : List Int) :
    (v :: vs).foldl minStep 0 = vs.foldl minStep v := by
  rw [List.foldl_cons]
  simp [minStep]

/-- The two loop stages of `GetFirstResource`, when every timestamp parses,
compute a `foldl` of `minStep` over the space's resources in order. -/
theorem GetFirstResource_ok_of_all_parse (parse : String → Option Int) (s : Space)
    (apps : List App) (instances : List ServiceInstance)
    (hA : ∀ a ∈ apps.filter (fun a => a.spaceGuid = s.guid), (parse a.createdAt).isSome)
    (hI : ∀ i ∈ instances.filter (fun i => i.spaceGuid = s.guid),
      (parse i.createdAt).isSome) :
    GetFirstResource parse s apps instances =
      .ok ((((apps.filter (fun a => a.spaceGuid = s.guid)).map
          (fun a => (parse a.createdAt).getD 0)) ++
        ((instances.filter (fun i => i.spaceGuid = s.guid)).map
          (fun i => (parse i.createdAt).getD 0))).foldl minStep 0) := by
  unfold GetFirstResource groupAppsBySpace groupInstancesBySpace
  rw [mapGet_groupBySpace, mapGet_groupBySpace]
  rw [foldFirst_ok_of_all_parse parse App.createdAt _ 0 hA]
  show foldFirst parse ServiceInstance.createdAt _ _ = _
  rw [foldFirst_ok_of_all_parse parse ServiceInstance.createdAt _ _ hI]
  rw [List.foldl_append, List.foldl_map, List.foldl_map]

theorem GetFirstResource_error_of_bad (parse : String → Option Int) (s : Space)
    (apps : List App) (instances : List ServiceInstance)
    (h : (∃ a ∈ apps, a.spaceGuid = s.guid ∧ parse a.createdAt = none) ∨
      (∃ i ∈ instances, i.spaceGuid = s.guid ∧ parse i.createdAt = none)) :
    ∃ e, GetFirstResource parse s apps instances = .error e := by
  unfold GetFirstResource groupAppsBySpace groupInstancesBySpace
  rw [mapGet_groupBySpace, mapGet_groupBySpace]
  rcases h with ⟨a, ha, hguid, hbad⟩ | ⟨i, hi, hguid, hbad⟩
  · have hmem : a ∈ apps.filter (fun a => a.spaceGuid = s.guid) :=
      List.mem_filter.mpr ⟨ha, by simp [hguid]⟩
    obtain ⟨e, he⟩ := foldFirst_error_of_bad parse App.createdAt _ 0 ⟨a, hmem, hbad⟩
    exact ⟨e, by rw [he]⟩
  · cases hfA : foldFirst parse App.createdAt 0
      (apps.filter (fun a => a.spaceGuid = s.guid)) with
    | error e => exact ⟨e, rfl⟩
    | ok f =>
      have hmem : i ∈ instances.filter (fun i => i.spaceGuid = s.guid) :=
        List.mem_filter.mpr ⟨hi, by simp [hguid]⟩
      obtain ⟨e, he⟩ :=
        foldFirst_error_of_bad parse ServiceInstance.createdAt _ f ⟨i, hmem, hbad⟩
      refine ⟨e, ?_⟩
      show foldFirst parse ServiceInstance.createdAt f _ = Except.error e
      exact he

theorem GetFirstResource_ok_zero_of_empty (parse : String → Option Int) (s : Space)
    (apps : List App) (instances : List ServiceInstance)
    (hA : apps.filter (fun a => a.spaceGuid = s.guid) = [])
    (hI : instances.filter (fun i => i.spaceGuid = s.guid) = []) :
    GetFirstResource parse s apps instances = .ok 0 := by
  unfold GetFirstResource groupAppsBySpace groupInstancesBySpace
  rw [mapGet_groupBySpace, mapGet_groupBySpace, hA, hI]
  rfl

/-- `GetFirstResource` reads nothing of the space but its guid. -/
theorem GetFirstResource_guid_eq (parse : String → Option Int) (s1 s2 : Space)
    (apps : List App) (instances : List ServiceInstance) (h : s1.guid = s2.guid) :
    GetFirstResource parse s1 apps instances = GetFirstResource parse s2 apps instances := by
  unfold GetFirstResource
  rw [h]

/-! ### ListPurgeSpaces loop lemmas -/

section ListPurgeLemmas

variable (parse : String → Option Int) (apps : List App)
  (instances : List ServiceInstance) (now notifyThreshold purgeThreshold timeStartsAt : Int)

theorem listPurgeGo_cons_error (s : Space) (rest : List Space) (n p : List SpaceDetails)
    (e : String) (hE : GetFirstResource parse s apps instances = Except.error e) :
    listPurgeGo parse apps instances now notifyThreshold purgeThreshold timeStartsAt
      (s :: rest) n p = (n, p, some e) := by
  simp only [listPurgeGo, hE]

theorem listPurgeGo_cons_ok (s : Space) (rest : List Space) (n p : List SpaceDetails)
    (f : Int) (hF : GetFirstResource parse s apps instances = Except.ok f) :
    listPurgeGo parse apps instances now notifyThreshold purgeThreshold timeStartsAt
      (s :: rest) n p =
      (if f = 0 then
        listPurgeGo parse apps instances now notifyThreshold purgeThreshold timeStartsAt
          rest n p
      else if deltaOf now (anchorOf timeStartsAt f) ≥ purgeThreshold then
        listPurgeGo parse apps instances now notifyThreshold purgeThreshold timeStartsAt
          rest n (p ++ [⟨anchorOf timeStartsAt f, s⟩])
      else if deltaOf now (anchorOf timeStartsAt f) ≥ notifyThreshold then
        listPurgeGo parse apps instances now notifyThreshold purgeThreshold timeStartsAt
          rest (n ++ [⟨anchorOf timeStartsAt f, s⟩]) p
      else
        listPurgeGo parse apps instances now notifyThreshold purgeThreshold timeStartsAt
          rest n p) := by
  simp only [listPurgeGo, hF]
  rfl

theorem listPurgeGo_acc :
    ∀ (spaces : List Space) (n p : List SpaceDetails),
    listPurgeGo parse apps instances now notifyThreshold purgeThreshold timeStartsAt
      spaces n p =
      (n ++ (listPurgeGo parse apps instances now notifyThreshold purgeThreshold
          timeStartsAt spaces [] []).1,
       p ++ (listPurgeGo parse apps instances now notifyThreshold purgeThreshold
          timeStartsAt spaces [] []).2.1,
       (listPurgeGo parse apps instances now notifyThreshold purgeThreshold
          timeStartsAt spaces [] []).2.2) := by
  intro spaces
  induction spaces with
  | nil => intro n p; simp [listPurgeGo]
  | cons s rest ih =>
    intro n p
    cases hF : GetFirstResource parse s apps instances with
    | error e =>
      rw [listPurgeGo_cons_error parse apps instances now notifyThreshold purgeThreshold
          timeStartsAt s rest n p e hF,
        listPurgeGo_cons_error parse apps instances now notifyThreshold purgeThreshold
          timeStartsAt s rest [] [] e hF]
      simp
    | ok f =>
      rw [listPurgeGo_cons_ok parse apps instances now notifyThreshold purgeThreshold
          timeStartsAt s rest n p f hF,
        listPurgeGo_cons_ok parse apps instances now notifyThreshold purgeThreshold
          timeStartsAt s rest [] [] f hF]
      by_cases hz : f = 0
      · rw [if_pos hz, if_pos hz, ih n p]
      · rw [if_neg hz, if_neg hz]
        by_cases hpu : deltaOf now (anchorOf timeStartsAt f) ≥ purgeThreshold
        · rw [if_pos hpu, if_pos hpu,
            ih n (p ++ [SpaceDetails.mk (anchorOf timeStartsAt f) s]),
            ih [] ([] ++ [SpaceDetails.mk (anchorOf timeStartsAt f) s])]
          simp
        · rw [if_neg hpu, if_neg hpu]
          by_cases hno : deltaOf now (anchorOf timeStartsAt f) ≥ notifyThreshold
          · rw [if_pos hno, if_pos hno,
              ih (n ++ [SpaceDetails.mk (anchorOf timeStartsAt f) s]) p,
              ih ([] ++ [SpaceDetails.mk (anchorOf timeStartsAt f) s]) []]
            simp
          · rw [if_neg hno, if_neg hno, ih n p]

/-- Every entry of `toNotify` / `toPurge` records the truncated clamped
anchor of its own space's `GetFirstResource` value, and its recomputed age
delta sits in the branch's threshold range. -/
theorem listPurge_mem_inv :
    ∀ (spaces : List Space),
    (∀ d ∈ (ListPurgeSpaces parse spaces apps instances now notifyThreshold
        purgeThreshold timeStartsAt).1,
       ∃ f, GetFirstResource parse d.space apps instances = Except.ok f ∧ f ≠ 0 ∧
         d.timestamp = anchorOf timeStartsAt f ∧
         deltaOf now d.timestamp ≥ notifyThreshold ∧
         ¬ deltaOf now d.timestamp ≥ purgeThreshold) ∧
    (∀ d ∈ (ListPurgeSpaces parse spaces apps instances now notifyThreshold
        purgeThreshold timeStartsAt).2.1,
       ∃ f, GetFirstResource parse d.space apps instances = Except.ok f ∧ f ≠ 0 ∧
         d.timestamp = anchorOf timeStartsAt f ∧
         deltaOf now d.timestamp ≥ purgeThreshold) := by
  intro spaces
  induction spaces with
  | nil =>
    constructor <;> (intro d hd; simp [ListPurgeSpaces, listPurgeGo] at hd)
  | cons s rest ih =>
    obtain ⟨ihN, ihP⟩ := ih
    unfold ListPurgeSpaces at ihN ihP ⊢
    cases hF : GetFirstResource parse s apps instances with
    | error e =>
      rw [listPurgeGo_cons_error parse apps instances now notifyThreshold purgeThreshold
          timeStartsAt s rest [] [] e hF]
      constructor <;> (intro d hd; simp at hd)
    | ok f =>
      rw [listPurgeGo_cons_ok parse apps instances now notifyThreshold purgeThreshold
          timeStartsAt s rest [] [] f hF]
      by_cases hz : f = 0
      · rw [if_pos hz]
        exact ⟨ihN, ihP⟩
      · rw [if_neg hz]
        by_cases hpu : deltaOf now (anchorOf timeStartsAt f) ≥ purgeThreshold
        · rw [if_pos hpu,
            listPurgeGo_acc parse apps instances now notifyThreshold purgeThreshold
              timeStartsAt rest [] ([] ++ [SpaceDetails.mk (anchorOf timeStartsAt f) s])]
          constructor
          · intro d hd
            simp only [List.nil_append, List.mem_append] at hd
            exact ihN d hd
          · intro d hd
            simp only [List.nil_append, List.mem_append, List.mem_singleton] at hd
            rcases hd with heq | hmem
            · subst heq
              exact ⟨f, hF, hz, rfl, hpu⟩
            · exact ihP d hmem
        · rw [if_neg hpu]
          by_cases hno : deltaOf now (anchorOf timeStartsAt f) ≥ notifyThreshold
          · rw [if_pos hno,
              listPurgeGo_acc parse apps instances now notifyThreshold purgeThreshold
                timeStartsAt rest ([] ++ [SpaceDetails.mk (anchorOf timeStartsAt f) s]) []]
            constructor
            · intro d hd
              simp only [List.nil_append, List.mem_append, List.mem_singleton] at hd
              rcases hd with heq | hmem
              · subst heq
                exact ⟨f, hF, hz, rfl, hno, hpu⟩
              · exact ihN d hmem
            · intro d hd
              simp only [List.nil_append, List.mem_append] at hd
              exact ihP d hd
          · rw [if_neg hno]
            exact ⟨ihN, ihP⟩

end ListPurgeLemmas

theorem truncateDay_le_anchorOf (tsa f : Int) : truncateDay tsa ≤ anchorOf tsa f := by
  unfold anchorOf clampStart
  by_cases h : tsa > f
  · rw [if_pos h]
  · rw [if_neg h]
    exact truncateDay_mono (by omega)

/-! ### Claim C1 -/

/-- C1 as stated is false: with `timeStartsAt = 5` (not day-aligned) and a
space whose first resource parses to `10`, the recorded anchor is the
day-truncation `0`, which is earlier than `timeStartsAt`. -/
theorem claim_C1_counterexample :
    (ListPurgeSpaces (fun c => if c = "t" then some 10 else none)
        [⟨"s", "n"⟩] [⟨"a", "s", "t"⟩] [] 1000 0 0 5).2.1 =
      [⟨0, ⟨"s", "n"⟩⟩] ∧ ¬ ((5 : Int) ≤ (0 : Int)) := by
  exact ⟨by decide, by decide⟩

/-- C1 (amended): every anchor timestamp recorded in `toNotify` or `toPurge`
is at least `timeStartsAt` truncated to the 24-hour boundary; because the
code truncates after clamping, the anchor can be up to a day earlier than
`timeStartsAt` itself. -/
theorem claim_C1 (parse : String → Option Int) (spaces : List Space) (apps : List App)
    (instances : List ServiceInstance)
    (now notifyThreshold purgeThreshold timeStartsAt : Int) :
    (∀ d ∈ (ListPurgeSpaces parse spaces apps instances now notifyThreshold
        purgeThreshold timeStartsAt).1, truncateDay timeStartsAt ≤ d.timestamp) ∧
    (∀ d ∈ (ListPurgeSpaces parse spaces apps instances now notifyThreshold
        purgeThreshold timeStartsAt).2.1, truncateDay timeStartsAt ≤ d.timestamp) := by
  obtain ⟨hN, hP⟩ := listPurge_mem_inv parse apps instances now notifyThreshold
    purgeThreshold timeStartsAt spaces
  constructor
  · intro d hd
    obtain ⟨f, _, _, hts, _, _⟩ := hN d hd
    rw [hts]
    exact truncateDay_le_anchorOf timeStartsAt f
  · intro d hd
    obtain ⟨f, _, _, hts, _⟩ := hP d hd
    rw [hts]
    exact truncateDay_le_anchorOf timeStartsAt f

theorem claim_C1_witness :
    (⟨0, ⟨"s", "n"⟩⟩ : SpaceDetails) ∈ (ListPurgeSpaces
      (fun c => if c = "t" then some 10 else none)
      [⟨"s", "n"⟩] [⟨"a", "s", "t"⟩] [] 1000 0 0 5).2.1 ∧
    truncateDay 5 ≤ (0 : Int) :=
  ⟨by decide,
    (claim_C1 (fun c => if c = "t" then some 10 else none)
      [⟨"s", "n"⟩] [⟨"a", "s", "t"⟩] [] 1000 0 0 5).2 ⟨0, ⟨"s", "n"⟩⟩ (by decide)⟩

/-! ### Claim C10 -/

/-- C10: every timestamp recorded in `toNotify` or `toPurge` is exactly on a
24-hour boundary: truncating it again changes nothing. -/
theorem claim_C10 (parse : String → Option Int) (spaces : List Space) (apps : List App)
    (instances : List ServiceInstance)
    (now notifyThreshold purgeThreshold timeStartsAt : Int) :
    (∀ d ∈ (ListPurgeSpaces parse spaces apps instances now notifyThreshold
        purgeThreshold timeStartsAt).1, truncateDay d.timestamp = d.timestamp) ∧
    (∀ d ∈ (ListPurgeSpaces parse spaces apps instances now notifyThreshold
        purgeThreshold timeStartsAt).2.1, truncateDay d.timestamp = d.timestamp) := by
  obtain ⟨hN, hP⟩ := listPurge_mem_inv parse apps instances now notifyThreshold
    purgeThreshold timeStartsAt spaces
  constructor
  · intro d hd
    obtain ⟨f, _, _, hts, _, _⟩ := hN d hd
    rw [hts]
    exact truncateDay_idem _
  · intro d hd
    obtain ⟨f, _, _, hts, _⟩ := hP d hd
    rw [hts]
    exact truncateDay_idem _

theorem claim_C10_witness :
    (⟨0, ⟨"sx", "nx"⟩⟩ : SpaceDetails) ∈ (ListPurgeSpaces
      (fun c => if c = "u" then some 20 else none)
      [⟨"sx", "nx"⟩] [⟨"b", "sx", "u"⟩] [] 2000 0 0 0).2.1 ∧
    truncateDay 0 = (0 : Int) :=
  ⟨by decide,
    (claim_C10 (fun c => if c = "u" then some 20 else none)
      [⟨"sx", "nx"⟩] [⟨"b", "sx", "u"⟩] [] 2000 0 0 0).2 ⟨0, ⟨"sx", "nx"⟩⟩ (by decide)⟩

/-! ### Claim C5 -/

/-- C5: with `notifyThreshold ≤ purgeThreshold`, no space occurs in both
output sets of one run, and entries of `toNotify` never meet the purge
threshold (the purge check runs first), while entries of `toPurge` do. -/
theorem claim_C5 (parse : String → Option Int) (spaces : List Space) (apps : List App)
    (instances : List ServiceInstance)
    (now notifyThreshold purgeThreshold timeStartsAt : Int)
    (hle : notifyThreshold ≤ purgeThreshold) :
    (∀ d1 ∈ (ListPurgeSpaces parse spaces apps instances now notifyThreshold
        purgeThreshold timeStartsAt).1,
     ∀ d2 ∈ (ListPurgeSpaces parse spaces apps instances now notifyThreshold
        purgeThreshold timeStartsAt).2.1, d1.space.guid ≠ d2.space.guid) ∧
    (∀ d ∈ (ListPurgeSpaces parse spaces apps instances now notifyThreshold
        purgeThreshold timeStartsAt).1,
      ¬ deltaOf now d.timestamp ≥ purgeThreshold) ∧
    (∀ d ∈ (ListPurgeSpaces parse spaces apps instances now notifyThreshold
        purgeThreshold timeStartsAt).2.1,
      deltaOf now d.timestamp ≥ purgeThreshold) := by
  obtain ⟨hN, hP⟩ := listPurge_mem_inv parse apps instances now notifyThreshold
    purgeThreshold timeStartsAt spaces
  refine ⟨?_, ?_, ?_⟩
  · intro d1 hd1 d2 hd2 hguid
    obtain ⟨f1, hok1, _, hts1, _, hnp1⟩ := hN d1 hd1
    obtain ⟨f2, hok2, _, hts2, hp2⟩ := hP d2 hd2
    rw [GetFirstResource_guid_eq parse d1.space d2.space apps instances hguid, hok2]
      at hok1
    have hf : f2 = f1 := by
      injection hok1
    rw [hf] at hts2
    rw [hts1, ← hts2] at hnp1
    exact hnp1 hp2
  · intro d hd
    obtain ⟨f, _, _, _, _, hnp⟩ := hN d hd
    exact hnp
  · intro d hd
    obtain ⟨f, _, _, _, hp⟩ := hP d hd
    exact hp

theorem claim_C5_witness :
    (0 : Int) ≤ 1 ∧
    (⟨0, ⟨"sw", "nw"⟩⟩ : SpaceDetails) ∈ (ListPurgeSpaces
      (fun c => if c = "w" then some 30 else none)
      [⟨"sw", "nw"⟩] [⟨"cw", "sw", "w"⟩] [] 172800000000000 0 1 0).2.1 ∧
    deltaOf 172800000000000 (0 : Int) ≥ 1 :=
  ⟨by decide, by decide,
    (claim_C5 (fun c => if c = "w" then some 30 else none)
      [⟨"sw", "nw"⟩] [⟨"cw", "sw", "w"⟩] [] 172800000000000 0 1 0 (by decide)).2.2
      ⟨0, ⟨"sw", "nw"⟩⟩ (by decide)⟩

/-! ### Claim C6 -/

/-- C6: a space identifier carried by no app and no service instance never
appears in `toNotify` or `toPurge`, for any thresholds, `now`, and
`timeStartsAt`. -/
theorem claim_C6 (parse : String → Option Int) (spaces : List Space) (apps : List App)
    (instances : List ServiceInstance)
    (now notifyThreshold purgeThreshold timeStartsAt : Int) (g : String)
    (hA : ∀ a ∈ apps, a.spaceGuid ≠ g) (hI : ∀ i ∈ instances, i.spaceGuid ≠ g) :
    (∀ d ∈ (ListPurgeSpaces parse spaces apps instances now notifyThreshold
        purgeThreshold timeStartsAt).1, d.space.guid ≠ g) ∧
    (∀ d ∈ (ListPurgeSpaces parse spaces apps instances now notifyThreshold
        purgeThreshold timeStartsAt).2.1, d.space.guid ≠ g) := by
  obtain ⟨hN, hP⟩ := listPurge_mem_inv parse apps instances now notifyThreshold
    purgeThreshold timeStartsAt spaces
  have hzero : ∀ (s : Space), s.guid = g →
      GetFirstResource parse s apps instances = Except.ok 0 := by
    intro s hsg
    apply GetFirstResource_ok_zero_of_empty
    · rw [List.filter_eq_nil_iff]
      intro a ha
      simp only [decide_eq_true_eq]
      rw [hsg]
      exact hA a ha
    · rw [List.filter_eq_nil_iff]
      intro i hi
      simp only [decide_eq_true_eq]
      rw [hsg]
      exact hI i hi
  constructor
  · intro d hd hg
    obtain ⟨f, hok, hfz, _, _, _⟩ := hN d hd
    rw [hzero d.space hg] at hok
    injection hok with hf
    exact hfz hf.symm
  · intro d hd hg
    obtain ⟨f, hok, hfz, _, _⟩ := hP d hd
    rw [hzero d.space hg] at hok
    injection hok with hf
    exact hfz hf.symm

theorem claim_C6_witness :
    (⟨0, ⟨"occupied", "o"⟩⟩ : SpaceDetails) ∈ (ListPurgeSpaces (fun _ => some 30)
      [⟨"occupied", "o"⟩] [⟨"x", "occupied", "u"⟩] [] 2000 0 0 0).2.1 ∧
    (SpaceDetails.mk 0 ⟨"occupied", "o"⟩).space.guid ≠ "lonely" :=
  ⟨by decide,
    (claim_C6 (fun _ => some 30) [⟨"occupied", "o"⟩] [⟨"x", "occupied", "u"⟩] []
      2000 0 0 0 "lonely" (by decide) (by decide)).2 ⟨0, ⟨"occupied", "o"⟩⟩ (by decide)⟩

/-! ### Claim C8 -/

/-- C8 as stated is false: with a space containing a resource parsed to the
zero instant (Go's zero `time.Time`, which RFC3339-parses from year 1) and a
later resource, the space's true earliest creation timestamp (0) predates
`timeStartsAt`, yet the recorded anchor is the later resource's day, not
`timeStartsAt` truncated — because `GetFirstResource` treats the zero
timestamp as "unset" and skips over it. -/
theorem claim_C8_counterexample :
    (fun c => if c = "z" then some (0 : Int) else if c = "f" then
        some 1296000000000000 else none) "z" = some 0 ∧
    (0 : Int) < 864000000000000 ∧
    (ListPurgeSpaces
        (fun c => if c = "z" then some (0 : Int) else if c = "f" then
          some 1296000000000000 else none)
        [⟨"s", "n"⟩] [⟨"a1", "s", "z"⟩, ⟨"a2", "s", "f"⟩] []
        8640000000000000 0 0 864000000000000).2.1 =
      [⟨1296000000000000, ⟨"s", "n"⟩⟩] ∧
    (1296000000000000 : Int) ≠ truncateDay 864000000000000 := by
  refine ⟨rfl, by decide, by decide, by decide⟩

/-- C8 (amended): for every space placed in `toNotify` or `toPurge` whose
`GetFirstResource` value (the code's earliest-resource computation, which
skips zero-instant timestamps) is before `timeStartsAt`, the recorded anchor
equals `timeStartsAt` truncated to 24 hours: the clamp happens before the
truncation. -/
theorem claim_C8 (parse : String → Option Int) (spaces : List Space) (apps : List App)
    (instances : List ServiceInstance)
    (now notifyThreshold purgeThreshold timeStartsAt : Int) :
    (∀ d ∈ (ListPurgeSpaces parse spaces apps instances now notifyThreshold
        purgeThreshold timeStartsAt).1,
      ∀ f, GetFirstResource parse d.space apps instances = Except.ok f →
        f < timeStartsAt → d.timestamp = truncateDay timeStartsAt) ∧
    (∀ d ∈ (ListPurgeSpaces parse spaces apps instances now notifyThreshold
        purgeThreshold timeStartsAt).2.1,
      ∀ f, GetFirstResource parse d.space apps instances = Except.ok f →
        f < timeStartsAt → d.timestamp = truncateDay timeStartsAt) := by
  obtain ⟨hN, hP⟩ := listPurge_mem_inv parse apps instances now notifyThreshold
    purgeThreshold timeStartsAt spaces
  constructor
  · intro d hd f hok hlt
    obtain ⟨f0, hok0, _, hts, _, _⟩ := hN d hd
    rw [hok] at hok0
    injection hok0 with hf
    rw [hts, ← hf]
    unfold anchorOf clampStart
    rw [if_pos hlt]
  · intro d hd f hok hlt
    obtain ⟨f0, hok0, _, hts, _⟩ := hP d hd
    rw [hok] at hok0
    injection hok0 with hf
    rw [hts, ← hf]
    unfold anchorOf clampStart
    rw [if_pos hlt]

theorem claim_C8_witness :
    (⟨86400000000000, ⟨"sc", "nc"⟩⟩ : SpaceDetails) ∈ (ListPurgeSpaces
      (fun c => if c = "v" then some 10 else none)
      [⟨"sc", "nc"⟩] [⟨"ac", "sc", "v"⟩] [] 172800000000000 0 0 86400000000000).2.1 ∧
    (10 : Int) < 86400000000000 ∧
    (SpaceDetails.mk 86400000000000 ⟨"sc", "nc"⟩).timestamp =
      truncateDay 86400000000000 :=
  ⟨by decide, by decide,
    (claim_C8 (fun c => if c = "v" then some 10 else none)
      [⟨"sc", "nc"⟩] [⟨"ac", "sc", "v"⟩] [] 172800000000000 0 0 86400000000000).2
      ⟨86400000000000, ⟨"sc", "nc"⟩⟩ (by decide) 10 rfl (by decide)⟩

/-! ### Claim C2 -/

/-- C2 as stated is false: a malformed timestamp in a later space does make
the run fail, but the named return values carry the spaces already
classified, so `toPurge` is not empty alongside the error. -/
theorem claim_C2_counterexample :
    (ListPurgeSpaces (fun c => if c = "g" then some 10 else none)
        [⟨"s1", "n1"⟩, ⟨"s2", "n2"⟩] [⟨"a1", "s1", "g"⟩, ⟨"a2", "s2", "b"⟩] []
        1000 0 0 0).2.2 = some "b" ∧
    (ListPurgeSpaces (fun c => if c = "g" then some 10 else none)
        [⟨"s1", "n1"⟩, ⟨"s2", "n2"⟩] [⟨"a1", "s1", "g"⟩, ⟨"a2", "s2", "b"⟩] []
        1000 0 0 0).2.1 ≠ [] := by
  refine ⟨by decide, by decide⟩

/-- C2 (amended): if any listed space owns a resource whose creation
timestamp does not parse, `ListPurgeSpaces` returns a non-nil error; the
output sets returned alongside the error hold only spaces classified before
the failure and may be non-empty (Go callers must disregard them). -/
theorem claim_C2 (parse : String → Option Int) (spaces : List Space) (apps : List App)
    (instances : List ServiceInstance)
    (now notifyThreshold purgeThreshold timeStartsAt : Int) (s : Space)
    (hs : s ∈ spaces)
    (hbad : (∃ a ∈ apps, a.spaceGuid = s.guid ∧ parse a.createdAt = none) ∨
      (∃ i ∈ instances, i.spaceGuid = s.guid ∧ parse i.createdAt = none)) :
    (ListPurgeSpaces parse spaces apps instances now notifyThreshold purgeThreshold
      timeStartsAt).2.2.isSome := by
  revert hs
  induction spaces with
  | nil =>
    intro hs
    cases hs
  | cons s2 rest ih =>
    intro hs
    cases hF : GetFirstResource parse s2 apps instances with
    | error e =>
      unfold ListPurgeSpaces
      rw [listPurgeGo_cons_error parse apps instances now notifyThreshold purgeThreshold
          timeStartsAt s2 rest [] [] e hF]
      rfl
    | ok f =>
      rcases List.mem_cons.mp hs with heq | hmem
      · exfalso
        obtain ⟨e, he⟩ := GetFirstResource_error_of_bad parse s apps instances hbad
        rw [← heq] at hF
        rw [hF] at he
        cases he
      · unfold ListPurgeSpaces
        rw [listPurgeGo_cons_ok parse apps instances now notifyThreshold purgeThreshold
            timeStartsAt s2 rest [] [] f hF]
        have hrest := ih hmem
        unfold ListPurgeSpaces at hrest
        by_cases hz : f = 0
        · rw [if_pos hz]
          exact hrest
        · rw [if_neg hz]
          by_cases hpu : deltaOf now (anchorOf timeStartsAt f) ≥ purgeThreshold
          · rw [if_pos hpu,
              listPurgeGo_acc parse apps instances now notifyThreshold purgeThreshold
                timeStartsAt rest [] ([] ++ [SpaceDetails.mk (anchorOf timeStartsAt f) s2])]
            exact hrest
          · rw [if_neg hpu]
            by_cases hno : deltaOf now (anchorOf timeStartsAt f) ≥ notifyThreshold
            · rw [if_pos hno,
                listPurgeGo_acc parse apps instances now notifyThreshold purgeThreshold
                  timeStartsAt rest ([] ++ [SpaceDetails.mk (anchorOf timeStartsAt f) s2]) []]
              exact hrest
            · rw [if_neg hno]
              exact hrest

theorem claim_C2_witness :
    (⟨"s2", "n2"⟩ : Space) ∈ [(⟨"s1", "n1"⟩ : Space), ⟨"s2", "n2"⟩] ∧
    (ListPurgeSpaces (fun c => if c = "g" then some 10 else none)
      [⟨"s1", "n1"⟩, ⟨"s2", "n2"⟩] [⟨"a1", "s1", "g"⟩, ⟨"a2", "s2", "b"⟩] []
      1000 0 0 0).2.2.isSome :=
  ⟨by decide,
    claim_C2 (fun c => if c = "g" then some 10 else none)
      [⟨"s1", "n1"⟩, ⟨"s2", "n2"⟩] [⟨"a1", "s1", "g"⟩, ⟨"a2", "s2", "b"⟩] []
      1000 0 0 0 ⟨"s2", "n2"⟩ (by decide) (by decide)⟩

/-! ### Claim C4 -/

/-- C4 as stated is false at the zero instant: a resource whose timestamp
parses to Go's zero `time.Time` (RFC3339 `0001-01-01T00:00:00Z`) is treated
as "unset", so with resources parsed to 0 and 5 the function returns 5 (not
the minimum 0), and with a single resource parsed to 0 it returns the
sentinel even though the space is non-empty. -/
theorem claim_C4_counterexample :
    GetFirstResource
      (fun c => if c = "z" then some 0 else if c = "f" then some 5 else none)
      ⟨"sp", "np"⟩ [⟨"a1", "sp", "z"⟩, ⟨"a2", "sp", "f"⟩] [] = Except.ok 5 ∧
    (fun c => if c = "z" then some (0 : Int) else if c = "f" then some 5 else none)
      "z" = some 0 ∧
    ¬ ((5 : Int) ≤ 0) ∧
    GetFirstResource
      (fun c => if c = "z" then some 0 else if c = "f" then some 5 else none)
      ⟨"sp", "np"⟩ [⟨"a1", "sp", "z"⟩] [] = Except.ok 0 := by
  refine ⟨rfl, rfl, by decide, rfl⟩

/-- C4 (amended): for every space whose resources all parse to timestamps
different from the zero instant, `GetFirstResource` returns the minimum
creation timestamp across the space's apps and service instances, and it
returns the zero sentinel iff the space has no resources; a resource parsed
exactly to the zero instant is indistinguishable from "no resource" and is
skipped by the minimum computation. -/
theorem claim_C4 (parse : String → Option Int) (s : Space) (apps : List App)
    (instances : List ServiceInstance)
    (hA : ∀ a ∈ apps.filter (fun a => a.spaceGuid = s.guid),
      ∃ t, parse a.createdAt = some t ∧ t ≠ 0)
    (hI : ∀ i ∈ instances.filter (fun i => i.spaceGuid = s.guid),
      ∃ t, parse i.createdAt = some t ∧ t ≠ 0) :
    ((apps.filter (fun a => a.spaceGuid = s.guid)).map
        (fun a => (parse a.createdAt).getD 0) ++
      (instances.filter (fun i => i.spaceGuid = s.guid)).map
        (fun i => (parse i.createdAt).getD 0) = [] →
      GetFirstResource parse s apps instances = Except.ok 0) ∧
    (∀ v1 vs, (apps.filter (fun a => a.spaceGuid = s.guid)).map
        (fun a => (parse a.createdAt).getD 0) ++
      (instances.filter (fun i => i.spaceGuid = s.guid)).map
        (fun i => (parse i.createdAt).getD 0) = v1 :: vs →
      ∃ m, GetFirstResource parse s apps instances = Except.ok m ∧ m ∈ v1 :: vs ∧
        (∀ v ∈ v1 :: vs, m ≤ v) ∧ m ≠ 0) := by
  have hAs : ∀ a ∈ apps.filter (fun a => a.spaceGuid = s.guid),
      (parse a.createdAt).isSome := by
    intro a ha
    obtain ⟨t, ht, _⟩ := hA a ha
    rw [ht]
    rfl
  have hIs : ∀ i ∈ instances.filter (fun i => i.spaceGuid = s.guid),
      (parse i.createdAt).isSome := by
    intro i hi
    obtain ⟨t, ht, _⟩ := hI i hi
    rw [ht]
    rfl
  have hok := GetFirstResource_ok_of_all_parse parse s apps instances hAs hIs
  have hvne : ∀ v ∈ (apps.filter (fun a => a.spaceGuid = s.guid)).map
        (fun a => (parse a.createdAt).getD 0) ++
      (instances.filter (fun i => i.spaceGuid = s.guid)).map
        (fun i => (parse i.createdAt).getD 0), v ≠ 0 := by
    intro v hv
    rcases List.mem_append.mp hv with hva | hvi
    · obtain ⟨a, ha, hval⟩ := List.mem_map.mp hva
      obtain ⟨t, ht, htz⟩ := hA a ha
      rw [← hval, ht]
      exact htz
    · obtain ⟨i, hi, hval⟩ := List.mem_map.mp hvi
      obtain ⟨t, ht, htz⟩ := hI i hi
      rw [← hval, ht]
      exact htz
  constructor
  · intro hnil
    rw [hnil] at hok
    exact hok
  · intro v1 vs hcons
    rw [hcons] at hok hvne
    rw [foldl_minStep_zero_cons] at hok
    obtain ⟨hmem, hle1, hall⟩ := foldl_minStep_of_ne_zero vs v1
      (fun w hw => hvne w (List.mem_cons_of_mem v1 hw))
      (hvne v1 (List.mem_cons_self v1 vs))
    refine ⟨vs.foldl minStep v1, hok, hmem, ?_, hvne _ hmem⟩
    intro v hv
    rcases List.mem_cons.mp hv with heq | hm
    · rw [heq]
      exact hle1
    · exact hall v hm

theorem claim_C4_witness :
    GetFirstResource (fun c => if c = "g" then some 7 else none) ⟨"sw2", "nw2"⟩
      [⟨"aw", "sw2", "g"⟩] [] = Except.ok 7 := by
  have hA : ∀ a ∈ [App.mk "aw" "sw2" "g"].filter
      (fun a => a.spaceGuid = (Space.mk "sw2" "nw2").guid),
      ∃ t, (fun c => if c = "g" then some (7 : Int) else none) a.createdAt = some t ∧
        t ≠ 0 := by
    intro a ha
    rw [List.mem_filter, List.mem_singleton] at ha
    obtain ⟨ha1, _⟩ := ha
    subst ha1
    exact ⟨7, rfl, by decide⟩
  have hI : ∀ i ∈ ([] : List ServiceInstance).filter
      (fun i => i.spaceGuid = (Space.mk "sw2" "nw2").guid),
      ∃ t, (fun c => if c = "g" then some (7 : Int) else none) i.createdAt = some t ∧
        t ≠ 0 := by
    intro i hi
    cases hi
  obtain ⟨m, hok, hmem, _, _⟩ :=
    (claim_C4 (fun c => if c = "g" then some 7 else none) ⟨"sw2", "nw2"⟩
      [⟨"aw", "sw2", "g"⟩] [] hA hI).2 7 [] (by decide)
  rw [List.mem_singleton] at hmem
  rw [hmem] at hok
  exact hok

/-! ### Claim C3: PurgeSpace -/

theorem deleteAppsLoop_all_ok (client : Client) :
    ∀ (apps : List App), (∀ a ∈ apps, client.deleteAppResult a.guid = none) →
    deleteAppsLoop client apps = (none, apps.map (fun a => Call.deleteApp a.guid)) := by
  intro apps
  induction apps with
  | nil => intro _; rfl
  | cons a rest ih =>
    intro h
    have ha := h a (List.mem_cons_self a rest)
    simp only [deleteAppsLoop, ha]
    rw [ih (fun b hb => h b (List.mem_cons_of_mem a hb))]
    rfl

theorem deleteAppsLoop_first_fail (client : Client) :
    ∀ (pre : List App) (a : App) (post : List App) (e : String),
    (∀ b ∈ pre, client.deleteAppResult b.guid = none) →
    client.deleteAppResult a.guid = some e →
    deleteAppsLoop client (pre ++ a :: post) =
      (some e, pre.map (fun b => Call.deleteApp b.guid) ++ [Call.deleteApp a.guid]) := by
  intro pre
  induction pre with
  | nil =>
    intro a post e _ ha
    simp only [List.nil_append, deleteAppsLoop, ha]
    rfl
  | cons b rest ih =>
    intro a post e hpre ha
    have hb := hpre b (List.mem_cons_self b rest)
    simp only [List.cons_append, List.append_eq, deleteAppsLoop, hb]
    rw [ih a post e (fun c hc => hpre c (List.mem_cons_of_mem b hc)) ha]
    rfl

/-- C3: the four `PurgeSpace` scenarios.  (1) The combined space delete
succeeds: no error and no app-level call.  (2) The space delete fails and
listing the space's apps fails: the listing error is returned.  (3) Some
individual app deletion fails: the loop stops at the first failing app,
returns its error, and no later app is touched.  (4) Every individual app
deletion succeeds: the original space-deletion error is returned, not nil. -/
theorem claim_C3 (client : Client) (space : Space) :
    (client.deleteSpaceResult space.guid = none →
      PurgeSpace client space = (none, [Call.deleteSpace space.guid])) ∧
    (∀ se le, client.deleteSpaceResult space.guid = some se →
      client.listAppsResult space.guid = Except.error le →
      PurgeSpace client space =
        (some le, [Call.deleteSpace space.guid, Call.listApps space.guid])) ∧
    (∀ se apps2 pre a post e, client.deleteSpaceResult space.guid = some se →
      client.listAppsResult space.guid = Except.ok apps2 →
      apps2 = pre ++ a :: post →
      (∀ b ∈ pre, client.deleteAppResult b.guid = none) →
      client.deleteAppResult a.guid = some e →
      PurgeSpace client space =
        (some e, Call.deleteSpace space.guid :: Call.listApps space.guid ::
          (pre.map (fun b => Call.deleteApp b.guid) ++ [Call.deleteApp a.guid]))) ∧
    (∀ se apps2, client.deleteSpaceResult space.guid = some se →
      client.listAppsResult space.guid = Except.ok apps2 →
      (∀ b ∈ apps2, client.deleteAppResult b.guid = none) →
      PurgeSpace client space =
        (some se, Call.deleteSpace space.guid :: Call.listApps space.guid ::
          apps2.map (fun b => Call.deleteApp b.guid))) := by
  refine ⟨?_, ?_, ?_, ?_⟩
  · intro h
    simp only [PurgeSpace, h]
  · intro se le hds hla
    simp only [PurgeSpace, hds, hla]
  · intro se apps2 pre a post e hds hla happs hpre ha
    simp only [PurgeSpace, hds, hla, happs]
    rw [deleteAppsLoop_first_fail client pre a post e hpre ha]
    rfl
  · intro se apps2 hds hla hall
    simp only [PurgeSpace, hds, hla]
    rw [deleteAppsLoop_all_ok client apps2 hall]
    rfl

theorem claim_C3_witness :
    PurgeSpace
      (Client.mk (fun _ => some "se")
        (fun _ => Except.ok [⟨"x", "sp", "c"⟩, ⟨"y", "sp", "c"⟩])
        (fun g => if g = "x" then none else some "boom"))
      ⟨"sp", "np"⟩ =
      (some "boom", [Call.deleteSpace "sp", Call.listApps "sp",
        Call.deleteApp "x", Call.deleteApp "y"]) := by
  have h := (claim_C3
    (Client.mk (fun _ => some "se")
      (fun _ => Except.ok [⟨"x", "sp", "c"⟩, ⟨"y", "sp", "c"⟩])
      (fun g => if g = "x" then none else some "boom"))
    ⟨"sp", "np"⟩).2.2.1 "se" [⟨"x", "sp", "c"⟩, ⟨"y", "sp", "c"⟩]
    [⟨"x", "sp", "c"⟩] ⟨"y", "sp", "c"⟩ [] "boom" rfl rfl rfl
    (by intro b hb; rw [List.mem_singleton] at hb; subst hb; rfl) rfl
  rw [h]
  rfl

/-! ### Claim C7 -/

/-- C7: moving `now` forward by one day never moves a space backward:
an entry of `toNotify` is in `toNotify` or `toPurge` one day later, and an
entry of `toPurge` stays in `toPurge`, for fixed resources, thresholds and
`timeStartsAt`. -/
theorem claim_C7 (parse : String → Option Int) (spaces : List Space) (apps : List App)
    (instances : List ServiceInstance)
    (now notifyThreshold purgeThreshold timeStartsAt : Int) :
    (∀ d ∈ (ListPurgeSpaces parse spaces apps instances now notifyThreshold
        purgeThreshold timeStartsAt).1,
      d ∈ (ListPurgeSpaces parse spaces apps instances (now + nsPerDay) notifyThreshold
        purgeThreshold timeStartsAt).1 ∨
      d ∈ (ListPurgeSpaces parse spaces apps instances (now + nsPerDay) notifyThreshold
        purgeThreshold timeStartsAt).2.1) ∧
    (∀ d ∈ (ListPurgeSpaces parse spaces apps instances now notifyThreshold
        purgeThreshold timeStartsAt).2.1,
      d ∈ (ListPurgeSpaces parse spaces apps instances (now + nsPerDay) notifyThreshold
        purgeThreshold timeStartsAt).2.1) := by
  induction spaces with
  | nil =>
    constructor <;> (intro d hd; simp [ListPurgeSpaces, listPurgeGo] at hd)
  | cons s rest ih =>
    obtain ⟨ihN, ihP⟩ := ih
    unfold ListPurgeSpaces at ihN ihP ⊢
    cases hF : GetFirstResource parse s apps instances with
    | error e =>
      rw [listPurgeGo_cons_error parse apps instances now notifyThreshold purgeThreshold
          timeStartsAt s rest [] [] e hF,
        listPurgeGo_cons_error parse apps instances (now + nsPerDay) notifyThreshold
          purgeThreshold timeStartsAt s rest [] [] e hF]
      constructor <;> (intro d hd; simp at hd)
    | ok f =>
      rw [listPurgeGo_cons_ok parse apps instances now notifyThreshold purgeThreshold
          timeStartsAt s rest [] [] f hF,
        listPurgeGo_cons_ok parse apps instances (now + nsPerDay) notifyThreshold
          purgeThreshold timeStartsAt s rest [] [] f hF]
      by_cases hz : f = 0
      · rw [if_pos hz, if_pos hz]
        exact ⟨ihN, ihP⟩
      · rw [if_neg hz, if_neg hz]
        have hdd : deltaOf now (anchorOf timeStartsAt f) ≤
            deltaOf (now + nsPerDay) (anchorOf timeStartsAt f) := by
          unfold deltaOf
          exact tdiv_mono_left nsPerDay_pos (by have h := nsPerDay_pos; omega)
        by_cases hpu1 : deltaOf now (anchorOf timeStartsAt f) ≥ purgeThreshold
        · have hpu2 : deltaOf (now + nsPerDay) (anchorOf timeStartsAt f) ≥
              purgeThreshold := le_trans hpu1 hdd
          rw [if_pos hpu1, if_pos hpu2,
            listPurgeGo_acc parse apps instances now notifyThreshold purgeThreshold
              timeStartsAt rest [] ([] ++ [SpaceDetails.mk (anchorOf timeStartsAt f) s]),
            listPurgeGo_acc parse apps instances (now + nsPerDay) notifyThreshold
              purgeThreshold timeStartsAt rest []
              ([] ++ [SpaceDetails.mk (anchorOf timeStartsAt f) s])]
          constructor
          · intro d hd
            simp only [List.nil_append, List.mem_append, List.mem_singleton] at hd ⊢
            have h2 := ihN d hd
            tauto
          · intro d hd
            simp only [List.nil_append, List.mem_append, List.mem_singleton] at hd ⊢
            rcases hd with heq | hd2
            · exact Or.inl heq
            · exact Or.inr (ihP d hd2)
        · rw [if_neg hpu1]
          by_cases hno1 : deltaOf now (anchorOf timeStartsAt f) ≥ notifyThreshold
          · have hno2 : deltaOf (now + nsPerDay) (anchorOf timeStartsAt f) ≥
                notifyThreshold := le_trans hno1 hdd
            rw [if_pos hno1,
              listPurgeGo_acc parse apps instances now notifyThreshold purgeThreshold
                timeStartsAt rest ([] ++ [SpaceDetails.mk (anchorOf timeStartsAt f) s]) []]
            by_cases hpu2 : deltaOf (now + nsPerDay) (anchorOf timeStartsAt f) ≥
                purgeThreshold
            · rw [if_pos hpu2,
                listPurgeGo_acc parse apps instances (now + nsPerDay) notifyThreshold
                  purgeThreshold timeStartsAt rest []
                  ([] ++ [SpaceDetails.mk (anchorOf timeStartsAt f) s])]
              constructor
              · intro d hd
                simp only [List.nil_append, List.mem_append, List.mem_singleton] at hd ⊢
                rcases hd with heq | hd2
                · exact Or.inr (Or.inl heq)
                · have h2 := ihN d hd2
                  tauto
              · intro d hd
                simp only [List.nil_append, List.mem_append, List.mem_singleton] at hd ⊢
                exact Or.inr (ihP d hd)
            · rw [if_neg hpu2, if_pos hno2,
                listPurgeGo_acc parse apps instances (now + nsPerDay) notifyThreshold
                  purgeThreshold timeStartsAt rest
                  ([] ++ [SpaceDetails.mk (anchorOf timeStartsAt f) s]) []]
              constructor
              · intro d hd
                simp only [List.nil_append, List.mem_append, List.mem_singleton] at hd ⊢
                rcases hd with heq | hd2
                · exact Or.inl (Or.inl heq)
                · have h2 := ihN d hd2
                  tauto
              · intro d hd
                simp only [List.nil_append, List.mem_append, List.mem_singleton] at hd ⊢
                exact ihP d hd
          · rw [if_neg hno1]
            by_cases hpu2 : deltaOf (now + nsPerDay) (anchorOf timeStartsAt f) ≥
                purgeThreshold
            · rw [if_pos hpu2,
                listPurgeGo_acc parse apps instances (now + nsPerDay) notifyThreshold
                  purgeThreshold timeStartsAt rest []
                  ([] ++ [SpaceDetails.mk (anchorOf timeStartsAt f) s])]
              constructor
              · intro d hd
                simp only [List.nil_append, List.mem_append, List.mem_singleton] at hd ⊢
                have h2 := ihN d hd
                tauto
              · intro d hd
                simp only [List.nil_append, List.mem_append, List.mem_singleton] at hd ⊢
                exact Or.inr (ihP d hd)
            · rw [if_neg hpu2]
              by_cases hno2 : deltaOf (now + nsPerDay) (anchorOf timeStartsAt f) ≥
                  notifyThreshold
              · rw [if_pos hno2,
                  listPurgeGo_acc parse apps instances (now + nsPerDay) notifyThreshold
                    purgeThreshold timeStartsAt rest
                    ([] ++ [SpaceDetails.mk (anchorOf timeStartsAt f) s]) []]
                constructor
                · intro d hd
                  simp only [List.nil_append, List.mem_append, List.mem_singleton] at hd ⊢
                  have h2 := ihN d hd
                  tauto
                · intro d hd
                  simp only [List.nil_append, List.mem_append, List.mem_singleton] at hd ⊢
                  exact ihP d hd
              · rw [if_neg hno2]
                exact ⟨ihN, ihP⟩

theorem claim_C7_witness :
    (⟨0, ⟨"sm", "nm"⟩⟩ : SpaceDetails) ∈ (ListPurgeSpaces
      (fun c => if c = "m" then some 40 else none)
      [⟨"sm", "nm"⟩] [⟨"am", "sm", "m"⟩] [] 4000 0 0 0).2.1 ∧
    (⟨0, ⟨"sm", "nm"⟩⟩ : SpaceDetails) ∈ (ListPurgeSpaces
      (fun c => if c = "m" then some 40 else none)
      [⟨"sm", "nm"⟩] [⟨"am", "sm", "m"⟩] [] (4000 + nsPerDay) 0 0 0).2.1 :=
  ⟨by decide,
    (claim_C7 (fun c => if c = "m" then some 40 else none)
      [⟨"sm", "nm"⟩] [⟨"am", "sm", "m"⟩] [] 4000 0 0 0).2
      ⟨0, ⟨"sm", "nm"⟩⟩ (by decide)⟩

theorem claim_C9_witness :
    (⟨"p1", "ga", "c1"⟩ : App) ∈
      mapGet (groupAppsBySpace [⟨"p1", "ga", "c1"⟩, ⟨"p2", "gb", "c2"⟩]) "ga" ∧
    "ga" = (App.mk "p1" "ga" "c1").spaceGuid ∧
    (⟨"q1", "ga", "d1"⟩ : ServiceInstance) ∈
      mapGet (groupInstancesBySpace [⟨"q1", "ga", "d1"⟩]) "ga" ∧
    "ga" = (ServiceInstance.mk "q1" "ga" "d1").spaceGuid :=
  ⟨by decide,
    (claim_C9 [⟨"p1", "ga", "c1"⟩, ⟨"p2", "gb", "c2"⟩] [⟨"q1", "ga", "d1"⟩] "ga"
      ⟨"p1", "ga", "c1"⟩ ⟨"q1", "ga", "d1"⟩).2.2.2.1 (by decide),
    by decide,
    (claim_C9 [⟨"p1", "ga", "c1"⟩, ⟨"p2", "gb", "c2"⟩] [⟨"q1", "ga", "d1"⟩] "ga"
      ⟨"p1", "ga", "c1"⟩ ⟨"q1", "ga", "d1"⟩).2.2.2.2.2.2.2 (by decide)⟩

end Sandbox
